import Mathlib

/-!
Shallow embedding of the NomadServer protocol client
(`src/services/nostr/NomadServer.ts` of the Nomad-wallet repository) and of
the balance mapping in `src/services/wallet/BdkWalletService.ts`.

The client is single-threaded (JS event loop); we model it as a state
machine.  A `CState` carries the correlation table `pending`
(`this.pendingRequests : Map<string, {resolve, reject, timeout}>`, modelled
as an association list from request id to the timer handle), the set of
live `setTimeout` handles (`liveTimers`), a ghost map `created` recording
which request id each timer handle was created for, a ghost log `outcomes`
recording every call of a pending entry's `resolve`/`reject` closure (plus
the publish-failure cleanup that propagates the error to the caller), the
ghost list `registered` of ids ever registered, the `NomadServerState`
session record, and a fresh-timer counter.

Atomic actions (`Act`) are the synchronous blocks the event loop can run:
the success continuation of `initialize`, the synchronous registration part
of `sendRequest`, a delivery of the subscription callback
(`handleResponse`), the firing of a `setTimeout` callback, the `catch`
block of `sendRequest` after `publish` threw, and `disconnect`.
`wfA` states when an action can actually occur (a timer only fires while
live, `sendRequest` requires a connected state and a fresh UUID).
-/

/-- Association-list lookup, mirroring `Map.get`/`Map.has`. -/
def getA {α β : Type} [DecidableEq α] : List (α × β) → α → Option β
  | [], _ => none
  | (k2, v) :: rest, k => if k2 = k then some v else getA rest k

/-- Association-list removal, mirroring `Map.delete`. -/
def delA {α β : Type} [DecidableEq α] : List (α × β) → α → List (α × β)
  | [], _ => []
  | (k2, v) :: rest, k =>
      if k2 = k then delA rest k else (k2, v) :: delA rest k

theorem getA_delA_self {α β : Type} [DecidableEq α] (m : List (α × β)) (k : α) :
    getA (delA m k) k = none := by
  induction m with
  | nil => rfl
  | cons p rest ih =>
      obtain ⟨k2, v⟩ := p
      by_cases h : k2 = k
      · simpa [delA, h] using ih
      · simpa [delA, getA, h] using ih

theorem getA_delA_ne {α β : Type} [DecidableEq α] (m : List (α × β)) (k k2 : α)
    (h : k2 ≠ k) : getA (delA m k) k2 = getA m k2 := by
  induction m with
  | nil => rfl
  | cons p rest ih =>
      obtain ⟨k3, v⟩ := p
      have hk2 : ¬ (k = k2) := fun he => h he.symm
      by_cases h3 : k3 = k
      · have h32 : ¬ (k3 = k2) := fun he => h (he.symm.trans h3)
        simp [delA, getA, h3, h32, hk2, ih]
      · by_cases h2 : k3 = k2
        · simp [delA, getA, h3, h2, h, ih]
        · simp [delA, getA, h3, h2, ih]

theorem getA_mem {α β : Type} [DecidableEq α] (m : List (α × β)) (k : α) (v : β)
    (h : getA m k = some v) : (k, v) ∈ m := by
  induction m with
  | nil => simp [getA] at h
  | cons p rest ih =>
      obtain ⟨k2, v2⟩ := p
      by_cases hk : k2 = k
      · subst hk
        simp [getA] at h
        simp [h]
      · simp [getA, hk] at h
        exact List.mem_cons_of_mem _ (ih h)

theorem getA_eq_none_of_not_mem_keys {α β : Type} [DecidableEq α]
    (m : List (α × β)) (k : α) (h : k ∉ m.map Prod.fst) : getA m k = none := by
  induction m with
  | nil => rfl
  | cons p rest ih =>
      obtain ⟨k2, v2⟩ := p
      simp only [List.map_cons, List.mem_cons] at h
      push_neg at h
      have hne : k2 ≠ k := fun he => h.1 he.symm
      simp [getA, hne, ih h.2]

theorem mem_keys_of_getA {α β : Type} [DecidableEq α]
    (m : List (α × β)) (k : α) (v : β) (h : getA m k = some v) :
    k ∈ m.map Prod.fst := by
  have := getA_mem m k v h
  exact List.mem_map.mpr ⟨(k, v), this, rfl⟩

theorem keys_delA_sublist {α β : Type} [DecidableEq α] (m : List (α × β)) (k : α) :
    ((delA m k).map Prod.fst).Sublist (m.map Prod.fst) := by
  induction m with
  | nil => simp [delA]
  | cons p rest ih =>
      obtain ⟨k2, v2⟩ := p
      by_cases h : k2 = k
      · simp only [delA, h, if_pos rfl, List.map_cons]
        exact ih.trans (List.sublist_cons_self _ _)
      · simp only [delA, h, if_neg h, List.map_cons]
        exact ih.cons₂ _

theorem getA_delA_eq_none {α β : Type} [DecidableEq α] (m : List (α × β))
    (k k2 : α) (h : getA m k2 = none) : getA (delA m k) k2 = none := by
  by_cases hk : k2 = k
  · subst hk; exact getA_delA_self m k2
  · rw [getA_delA_ne m k k2 hk]; exact h

/-- Transaction entry of a balance response body
(`Transaction` in `src/types/nomadserver.ts`). -/
structure Transaction where
  txid : String
  confirmations : Nat
  value : Int
deriving DecidableEq, Repr

/-- Result of `JSON.parse(event.content)` for the response bodies this
development needs (`NomadServerResponse` / `BalanceResponse` in
`src/types/nomadserver.ts`); fields the wire body may omit are `Option`. -/
structure RespBody where
  req : Option String
  confirmedBalance : Int
  unconfirmedBalance : Int
  transactions : List Transaction
deriving DecidableEq, Repr

/-- Inbound Nostr event as seen by `handleResponse` (`Event` in
`src/services/nostr/NostrClient.ts`).  `body` is the outcome of
`JSON.parse(event.content)`: `none` models the `SyntaxError` thrown on
malformed JSON, `some r` the parsed object. -/
structure Event where
  kind : Nat
  pubkey : String
  tags : List (List String)
  body : Option RespBody
deriving DecidableEq, Repr

/-- Extraction of the request id from the tags, lines 203-207 of
`NomadServer.ts`: `event.tags.find(tag => tag[0] === 'req')` followed by
the truthiness test `if (reqTag && reqTag[1])` (an empty string is falsy). -/
def tagReqId (tags : List (List String)) : Option String :=
  match tags.find? (fun t => decide (t.head? = some "req")) with
  | some t =>
      match t[1]? with
      | some s => if s = "" then none else some s
      | none => none
  | none => none

/-- Terminal outcome recorded for a correlation id: a call of the stored
`resolve` (line 258), of the stored `reject` with the timeout error
(line 291) or the disconnect error (line 544), or the cleanup-and-rethrow
of the publish failure path (lines 336-342). -/
inductive Outcome where
  | resolved (response : RespBody)
  | timedOut
  | publishFailed
  | disconnected
deriving DecidableEq, Repr

/-- `NomadServerState` from `src/types/nomadserver.ts`. -/
structure NomadServerState where
  isConnected : Bool
  serverPubkey : Option String
  relays : List String
  connectedRelays : List String
  lastActivity : Option Nat
deriving DecidableEq, Repr

/-- The constructor's session state (lines 54-60 of `NomadServer.ts`),
which is also what `disconnect` resets to (lines 554-560). -/
def initialNomadState : NomadServerState :=
  { isConnected := false, serverPubkey := none, relays := [],
    connectedRelays := [], lastActivity := none }

/-- Client state: correlation table, live timers, ghost bookkeeping
(`created`, `outcomes`, `registered`), session state, timer counter. -/
structure CState where
  pending : List (String × Nat)
  liveTimers : List Nat
  created : List (Nat × String)
  outcomes : List (String × Outcome)
  registered : List String
  session : NomadServerState
  nextTimer : Nat
deriving DecidableEq, Repr

/-- State right after `new NomadServer()` (lines 51-62). -/
def initCState : CState :=
  { pending := [], liveTimers := [], created := [], outcomes := [],
    registered := [], session := initialNomadState, nextTimer := 0 }

/-- `handleResponse` (lines 200-264 of `NomadServer.ts`).  Control flow of
the source: extract the id from the tags (203-207); early exit when the id
is `null` or not a key of `pendingRequests` (211-218); `JSON.parse` of the
content (221), whose exception is caught by the surrounding `try` and only
logged (261-263), leaving the state unchanged; the body-`req` fallback
branch (223-231) is guarded by `!requestId` and is unreachable here because
`requestId` is non-null past the early exit; then `clearTimeout`, `delete`,
`lastActivity = Date.now()`, `resolve(response)` (249-258). -/
def handleResponse (s : CState) (ev : Event) (now : Nat) : CState :=
  match tagReqId ev.tags with
  | none => s
  | some requestId =>
      match getA s.pending requestId with
      | none => s
      | some timer =>
          match ev.body with
          | none => s
          | some response =>
              { s with
                liveTimers := s.liveTimers.filter (fun x => decide (x ≠ timer)),
                pending := delA s.pending requestId,
                session := { s.session with lastActivity := some now },
                outcomes := s.outcomes ++ [(requestId, Outcome.resolved response)] }

/-- Atomic synchronous blocks of the client, as scheduled by the JS event
loop. -/
inductive Act where
  | connectOk (pk : String) (relays connectedRelays : List String) (now : Nat)
  | register (id : String)
  | deliver (ev : Event) (now : Nat)
  | fire (t : Nat)
  | pubFail (id : String)
  | disconnect (transportOk : Bool)
deriving DecidableEq, Repr

/-- One atomic step.
`connectOk`: the state update after a successful `initialize`
  (lines 110-116).
`register`: the synchronous body of the `new Promise` executor in
  `sendRequest` (lines 285-302): `setTimeout` allocates a fresh live timer
  and `pendingRequests.set` stores the entry.
`deliver`: the subscription callback running `handleResponse`.
`fire`: a `setTimeout` callback (287-294): only a live handle can fire;
  firing consumes the handle, deletes the table entry of the id the
  closure captured, and rejects with the timeout error.
`pubFail`: the `catch` block of `sendRequest` (334-343): if the entry is
  still present, clear its timer and delete it, and the rethrown error
  becomes the caller's rejection; if not, nothing changes.
`disconnect` (539-567): clear every pending entry's timer, reject each
  with the disconnect error, clear the table; the session reset (554-560)
  runs only if `nostrClient.disconnect()` did not throw. -/
def stepA (s : CState) : Act → CState
  | Act.connectOk pk rs crs now =>
      { s with session :=
          { isConnected := true, serverPubkey := some pk, relays := rs,
            connectedRelays := crs, lastActivity := some now } }
  | Act.register id =>
      { s with
        pending := (id, s.nextTimer) :: s.pending,
        liveTimers := s.nextTimer :: s.liveTimers,
        created := (s.nextTimer, id) :: s.created,
        registered := id :: s.registered,
        nextTimer := s.nextTimer + 1 }
  | Act.deliver ev now => handleResponse s ev now
  | Act.fire t =>
      if t ∈ s.liveTimers then
        match getA s.created t with
        | some id =>
            { s with
              liveTimers := s.liveTimers.filter (fun x => decide (x ≠ t)),
              pending := delA s.pending id,
              outcomes := s.outcomes ++ [(id, Outcome.timedOut)] }
        | none =>
            { s with liveTimers := s.liveTimers.filter (fun x => decide (x ≠ t)) }
      else s
  | Act.pubFail id =>
      match getA s.pending id with
      | some t =>
          { s with
            liveTimers := s.liveTimers.filter (fun x => decide (x ≠ t)),
            pending := delA s.pending id,
            outcomes := s.outcomes ++ [(id, Outcome.publishFailed)] }
      | none => s
  | Act.disconnect transportOk =>
      let cleared : CState :=
        { s with
          liveTimers :=
            s.liveTimers.filter (fun t => s.pending.all (fun p => decide (p.2 ≠ t))),
          outcomes :=
            s.outcomes ++ s.pending.map (fun p => (p.1, Outcome.disconnected)),
          pending := [] }
      if transportOk then { cleared with session := initialNomadState } else cleared

/-- Enabledness of an action: `sendRequest` registers only while connected
(line 277) and with a fresh random UUID (line 282, collision probability
treated as negligible); a `setTimeout` callback fires only while its
handle is live (not yet cleared). -/
def wfA (s : CState) : Act → Bool
  | Act.register id => s.session.isConnected && decide (id ∉ s.registered)
  | Act.fire t => decide (t ∈ s.liveTimers)
  | _ => true

/-- A trace is well formed when every action is enabled where it occurs. -/
def wfTrace : CState → List Act → Bool
  | _, [] => true
  | s, a :: rest => wfA s a && wfTrace (stepA s a) rest

/-- Run a trace. -/
def runA : CState → List Act → CState
  | s, [] => s
  | s, a :: rest => runA (stepA s a) rest

/-- Number of outcomes recorded for a given correlation id. -/
def countO (l : List (String × Outcome)) (id : String) : Nat :=
  (l.filter (fun o => decide (o.1 = id))).length

/-- Number of correlation-table entries with a given key. -/
def countK (m : List (String × Nat)) (id : String) : Nat :=
  (m.filter (fun p => decide (p.1 = id))).length

theorem countO_append (l1 l2 : List (String × Outcome)) (id : String) :
    countO (l1 ++ l2) id = countO l1 id + countO l2 id := by
  simp [countO, List.filter_append]

theorem countO_snoc (l : List (String × Outcome)) (id id2 : String) (o : Outcome) :
    countO (l ++ [(id2, o)]) id = countO l id + (if id2 = id then 1 else 0) := by
  rw [countO_append]
  by_cases h : id2 = id <;> simp [countO, h]

theorem countK_cons (k : String) (v : Nat) (rest : List (String × Nat)) (id : String) :
    countK ((k, v) :: rest) id = (if k = id then 1 else 0) + countK rest id := by
  by_cases h : k = id
  · simp [countK, List.filter_cons, h]
    omega
  · simp [countK, List.filter_cons, h]

theorem countK_eq_zero_of_getA_none (m : List (String × Nat)) (id : String)
    (h : getA m id = none) : countK m id = 0 := by
  induction m with
  | nil => rfl
  | cons p rest ih =>
      obtain ⟨k, v⟩ := p
      by_cases hk : k = id
      · simp [getA, hk] at h
      · simp [getA, hk] at h
        rw [countK_cons, if_neg hk, ih h]

theorem countK_eq_one_of_getA_some (m : List (String × Nat)) (id : String) (t : Nat)
    (hnd : (m.map Prod.fst).Nodup) (h : getA m id = some t) : countK m id = 1 := by
  induction m with
  | nil => simp [getA] at h
  | cons p rest ih =>
      obtain ⟨k, v⟩ := p
      simp only [List.map_cons, List.nodup_cons] at hnd
      rw [countK_cons]
      by_cases hk : k = id
      · subst hk
        have hnone : getA rest k = none :=
          getA_eq_none_of_not_mem_keys rest k hnd.1
        rw [if_pos rfl, countK_eq_zero_of_getA_none rest k hnone]
      · simp [getA, hk] at h
        rw [if_neg hk, ih hnd.2 h]

theorem countO_map_disc (m : List (String × Nat)) (id : String) :
    countO (m.map (fun p => (p.1, Outcome.disconnected))) id = countK m id := by
  induction m with
  | nil => rfl
  | cons p rest ih =>
      by_cases h : p.1 = id <;>
        simp [countO, countK, List.filter_cons, h] at ih ⊢ <;> omega

theorem two_mem_le_length {α : Type} (l : List α) (x y : α)
    (hx : x ∈ l) (hy : y ∈ l) (hne : x ≠ y) : 2 ≤ l.length := by
  induction l with
  | nil => cases hx
  | cons a l ih =>
      simp only [List.length_cons]
      rcases List.mem_cons.mp hx with hxa | hxl
      · rcases List.mem_cons.mp hy with hya | hyl
        · exact absurd (hxa.trans hya.symm) hne
        · have := List.length_pos.mpr (List.ne_nil_of_mem hyl); omega
      · have := List.length_pos.mpr (List.ne_nil_of_mem hxl); omega

/-- Inductive invariant of the client.  `regDichotomy` is the heart: every
id ever registered either is still pending, with zero recorded outcomes
and a live timer that will eventually fire, or has exactly one recorded
outcome and is gone from the table. -/
structure ClientInv (s : CState) : Prop where
  regDichotomy : ∀ id, id ∈ s.registered →
    (∃ t, getA s.pending id = some t ∧ countO s.outcomes id = 0) ∨
    (getA s.pending id = none ∧ countO s.outcomes id = 1)
  unregClean : ∀ id, id ∉ s.registered →
    getA s.pending id = none ∧ countO s.outcomes id = 0
  pendingTimer : ∀ id t, getA s.pending id = some t →
    t ∈ s.liveTimers ∧ getA s.created t = some id ∧ t < s.nextTimer
  liveOwner : ∀ t, t ∈ s.liveTimers → ∃ id, getA s.pending id = some t
  createdLt : ∀ t id, getA s.created t = some id → t < s.nextTimer
  keysNodup : (s.pending.map Prod.fst).Nodup

theorem inv_init : ClientInv initCState := by
  refine ⟨?_, ?_, ?_, ?_, ?_, ?_⟩ <;> simp [initCState, getA, countO, List.Nodup]

theorem mem_filter_ne {l : List Nat} {x t : Nat} :
    x ∈ l.filter (fun y => decide (y ≠ t)) ↔ x ∈ l ∧ x ≠ t := by
  simp [List.mem_filter]

theorem getA_isSome_of_mem_keys {α β : Type} [DecidableEq α]
    (m : List (α × β)) (k : α) (h : k ∈ m.map Prod.fst) :
    ∃ v, getA m k = some v := by
  induction m with
  | nil => cases h
  | cons p rest ih =>
      by_cases hph : p.1 = k
      · exact ⟨p.2, by simp [getA, hph]⟩
      · simp only [List.map_cons, List.mem_cons] at h
        rcases h with he | hmem
        · exact absurd he.symm hph
        · obtain ⟨v2, hv2⟩ := ih hmem
          exact ⟨v2, by simpa [getA, hph] using hv2⟩

/-- Settling a pending id (resolution, timeout firing, or publish-failure
cleanup) preserves the invariant: the entry and its timer go away and
exactly one outcome is appended. -/
theorem inv_settle (s : CState) (id : String) (t : Nat) (o : Outcome)
    (sess : NomadServerState) (hinv : ClientInv s)
    (hget : getA s.pending id = some t) :
    ClientInv { s with
      pending := delA s.pending id,
      liveTimers := s.liveTimers.filter (fun x => decide (x ≠ t)),
      outcomes := s.outcomes ++ [(id, o)],
      session := sess } := by
  obtain ⟨hreg, hunreg, hpt, hlo, hclt, hnd⟩ := hinv
  have hidreg : id ∈ s.registered := by
    by_contra hn
    have h0 := (hunreg id hn).1
    rw [h0] at hget
    exact Option.noConfusion hget
  have hcount0 : countO s.outcomes id = 0 := by
    rcases hreg id hidreg with ⟨t2, _, hc⟩ | ⟨hp, _⟩
    · exact hc
    · rw [hp] at hget; exact Option.noConfusion hget
  have hcreated : getA s.created t = some id := (hpt id t hget).2.1
  refine ⟨?_, ?_, ?_, ?_, ?_, ?_⟩
  · intro id2 hid2
    by_cases he : id2 = id
    · subst he
      right
      refine ⟨getA_delA_self _ _, ?_⟩
      rw [countO_snoc, hcount0, if_pos rfl]
    · rcases hreg id2 hid2 with ⟨t2, hp, hc⟩ | ⟨hp, hc⟩
      · left
        refine ⟨t2, ?_, ?_⟩
        · rw [getA_delA_ne _ _ _ he]; exact hp
        · rw [countO_snoc, hc, if_neg (fun h2 => he h2.symm)]
      · right
        refine ⟨getA_delA_eq_none _ _ _ hp, ?_⟩
        rw [countO_snoc, hc, if_neg (fun h2 => he h2.symm)]
  · intro id2 hid2
    have hne : id2 ≠ id := fun he => hid2 (he ▸ hidreg)
    obtain ⟨hp, hc⟩ := hunreg id2 hid2
    refine ⟨getA_delA_eq_none _ _ _ hp, ?_⟩
    rw [countO_snoc, hc, if_neg (fun h2 => hne h2.symm)]
  · intro id2 t2 hget2
    by_cases he : id2 = id
    · subst he
      rw [getA_delA_self] at hget2
      exact Option.noConfusion hget2
    · rw [getA_delA_ne _ _ _ he] at hget2
      obtain ⟨hlt, hcr, hn⟩ := hpt id2 t2 hget2
      have htne : t2 ≠ t := by
        intro hteq
        subst hteq
        rw [hcreated] at hcr
        exact he (Option.some.inj hcr).symm
      exact ⟨mem_filter_ne.mpr ⟨hlt, htne⟩, hcr, hn⟩
  · intro t2 ht2
    obtain ⟨ht2l, ht2ne⟩ := mem_filter_ne.mp ht2
    obtain ⟨id2, hp2⟩ := hlo t2 ht2l
    by_cases he : id2 = id
    · subst he
      rw [hget] at hp2
      exact absurd (Option.some.inj hp2).symm ht2ne
    · exact ⟨id2, by rw [getA_delA_ne _ _ _ he]; exact hp2⟩
  · exact hclt
  · exact (keys_delA_sublist s.pending id).nodup hnd

theorem inv_register (s : CState) (id : String) (hfresh : id ∉ s.registered)
    (hinv : ClientInv s) : ClientInv (stepA s (Act.register id)) := by
  obtain ⟨hreg, hunreg, hpt, hlo, hclt, hnd⟩ := hinv
  obtain ⟨hpnone, _⟩ := hunreg id hfresh
  refine ⟨?_, ?_, ?_, ?_, ?_, ?_⟩
  · intro id2 hid2
    simp only [stepA] at hid2 ⊢
    rcases List.mem_cons.mp hid2 with he | hmem
    · subst he
      left
      exact ⟨s.nextTimer, by simp [getA], (hunreg id2 hfresh).2⟩
    · rcases hreg id2 hmem with ⟨t2, hp, hc⟩ | ⟨hp, hc⟩
      · left
        have hne : id ≠ id2 := by
          intro he; subst he; exact hfresh hmem
        exact ⟨t2, by simp [getA, hne, hp], hc⟩
      · right
        have hne : id ≠ id2 := by
          intro he; subst he; exact hfresh hmem
        exact ⟨by simp [getA, hne, hp], hc⟩
  · intro id2 hid2
    simp only [stepA, List.mem_cons] at hid2 ⊢
    push_neg at hid2
    obtain ⟨hp, hc⟩ := hunreg id2 hid2.2
    have hne : id ≠ id2 := fun he => hid2.1 he.symm
    exact ⟨by simp [getA, hne, hp], hc⟩
  · intro id2 t2 hget2
    simp only [stepA] at hget2 ⊢
    by_cases he : id = id2
    · subst he
      simp only [getA, if_pos rfl] at hget2
      have ht2 : t2 = s.nextTimer := (Option.some.inj hget2).symm
      subst ht2
      exact ⟨List.mem_cons_self _ _, by simp [getA], Nat.lt_succ_self _⟩
    · simp only [getA, if_neg he] at hget2
      obtain ⟨hlt, hcr, hn⟩ := hpt id2 t2 hget2
      have htne : ¬ (s.nextTimer = t2) := fun he2 => absurd (he2 ▸ hn) (Nat.lt_irrefl _)
      exact ⟨List.mem_cons_of_mem _ hlt, by simp [getA, htne, hcr],
        Nat.lt_trans hn (Nat.lt_succ_self _)⟩
  · intro t2 ht2
    simp only [stepA] at ht2 ⊢
    rcases List.mem_cons.mp ht2 with he | hmem
    · subst he
      exact ⟨id, by simp [getA]⟩
    · obtain ⟨id2, hp2⟩ := hlo t2 hmem
      have hne : id ≠ id2 := by
        intro he; subst he
        rw [hpnone] at hp2
        exact Option.noConfusion hp2
      exact ⟨id2, by simp [getA, hne, hp2]⟩
  · intro t2 id2 hcr2
    simp only [stepA] at hcr2 ⊢
    by_cases he : s.nextTimer = t2
    · subst he
      exact Nat.lt_succ_self _
    · simp only [getA, if_neg he] at hcr2
      exact Nat.lt_trans (hclt t2 id2 hcr2) (Nat.lt_succ_self _)
  · simp only [stepA, List.map_cons, List.nodup_cons]
    refine ⟨?_, hnd⟩
    intro hmem
    obtain ⟨v, hv⟩ := getA_isSome_of_mem_keys s.pending id hmem
    rw [hpnone] at hv
    exact Option.noConfusion hv

theorem inv_connectOk (s : CState) (pk : String) (rs crs : List String) (now : Nat)
    (hinv : ClientInv s) : ClientInv (stepA s (Act.connectOk pk rs crs now)) := by
  obtain ⟨h1, h2, h3, h4, h5, h6⟩ := hinv
  exact ⟨h1, h2, h3, h4, h5, h6⟩

theorem inv_fire (s : CState) (t : Nat) (ht : t ∈ s.liveTimers)
    (hinv : ClientInv s) : ClientInv (stepA s (Act.fire t)) := by
  obtain ⟨id0, hp0⟩ := hinv.liveOwner t ht
  have hcr : getA s.created t = some id0 := (hinv.pendingTimer id0 t hp0).2.1
  have hstep : stepA s (Act.fire t) =
      { s with
        liveTimers := s.liveTimers.filter (fun x => decide (x ≠ t)),
        pending := delA s.pending id0,
        outcomes := s.outcomes ++ [(id0, Outcome.timedOut)] } := by
    simp [stepA, ht, hcr]
  rw [hstep]
  exact inv_settle s id0 t Outcome.timedOut s.session hinv hp0

theorem inv_pubFail (s : CState) (id : String) (hinv : ClientInv s) :
    ClientInv (stepA s (Act.pubFail id)) := by
  cases hg : getA s.pending id with
  | none => simpa [stepA, hg] using hinv
  | some t =>
      have hstep : stepA s (Act.pubFail id) =
          { s with
            liveTimers := s.liveTimers.filter (fun x => decide (x ≠ t)),
            pending := delA s.pending id,
            outcomes := s.outcomes ++ [(id, Outcome.publishFailed)] } := by
        simp [stepA, hg]
      rw [hstep]
      exact inv_settle s id t Outcome.publishFailed s.session hinv hg

theorem handleResponse_tag_none (s : CState) (ev : Event) (now : Nat)
    (h : tagReqId ev.tags = none) : handleResponse s ev now = s := by
  simp [handleResponse, h]

theorem handleResponse_not_pending (s : CState) (ev : Event) (now : Nat)
    (rid : String) (h : tagReqId ev.tags = some rid)
    (hg : getA s.pending rid = none) : handleResponse s ev now = s := by
  simp [handleResponse, h, hg]

theorem handleResponse_body_none (s : CState) (ev : Event) (now : Nat)
    (rid : String) (timer : Nat) (h : tagReqId ev.tags = some rid)
    (hg : getA s.pending rid = some timer) (hb : ev.body = none) :
    handleResponse s ev now = s := by
  simp [handleResponse, h, hg, hb]

theorem handleResponse_resolves (s : CState) (ev : Event) (now : Nat)
    (rid : String) (timer : Nat) (resp : RespBody)
    (h : tagReqId ev.tags = some rid) (hg : getA s.pending rid = some timer)
    (hb : ev.body = some resp) :
    handleResponse s ev now =
      { s with
        liveTimers := s.liveTimers.filter (fun x => decide (x ≠ timer)),
        pending := delA s.pending rid,
        session := { s.session with lastActivity := some now },
        outcomes := s.outcomes ++ [(rid, Outcome.resolved resp)] } := by
  simp [handleResponse, h, hg, hb]

theorem inv_deliver (s : CState) (ev : Event) (now : Nat) (hinv : ClientInv s) :
    ClientInv (handleResponse s ev now) := by
  cases htag : tagReqId ev.tags with
  | none => rw [handleResponse_tag_none s ev now htag]; exact hinv
  | some rid =>
      cases hg : getA s.pending rid with
      | none => rw [handleResponse_not_pending s ev now rid htag hg]; exact hinv
      | some timer =>
          cases hb : ev.body with
          | none => rw [handleResponse_body_none s ev now rid timer htag hg hb]; exact hinv
          | some resp =>
              rw [handleResponse_resolves s ev now rid timer resp htag hg hb]
              exact inv_settle s rid timer (Outcome.resolved resp)
                { s.session with lastActivity := some now } hinv hg

theorem disconnect_timers_cleared (s : CState) (hinv : ClientInv s) :
    s.liveTimers.filter (fun t => s.pending.all (fun p => decide (p.2 ≠ t))) = [] := by
  rw [List.filter_eq_nil_iff]
  intro t htl
  obtain ⟨id0, hp0⟩ := hinv.liveOwner t htl
  have hmem := getA_mem _ _ _ hp0
  intro hall
  rw [List.all_eq_true] at hall
  have := hall (id0, t) hmem
  simp at this

theorem inv_disconnect (s : CState) (ok : Bool) (hinv : ClientInv s) :
    ClientInv (stepA s (Act.disconnect ok)) := by
  have hlt := disconnect_timers_cleared s hinv
  obtain ⟨hreg, hunreg, hpt, hlo, hclt, hnd⟩ := hinv
  have hcore : ∀ sess : NomadServerState, ClientInv
      { s with
        liveTimers :=
          s.liveTimers.filter (fun t => s.pending.all (fun p => decide (p.2 ≠ t))),
        outcomes :=
          s.outcomes ++ s.pending.map (fun p => (p.1, Outcome.disconnected)),
        pending := [],
        session := sess } := by
    intro sess
    refine ⟨?_, ?_, ?_, ?_, ?_, ?_⟩
    · intro id hid
      right
      refine ⟨rfl, ?_⟩
      rcases hreg id hid with ⟨t, hp, hc⟩ | ⟨hp, hc⟩
      · rw [countO_append, countO_map_disc, hc,
          countK_eq_one_of_getA_some s.pending id t hnd hp]
      · rw [countO_append, countO_map_disc, hc,
          countK_eq_zero_of_getA_none s.pending id hp]
    · intro id hid
      obtain ⟨hp, hc⟩ := hunreg id hid
      refine ⟨rfl, ?_⟩
      rw [countO_append, countO_map_disc, hc,
        countK_eq_zero_of_getA_none s.pending id hp]
    · intro id t h
      exact Option.noConfusion h
    · intro t ht
      rw [hlt] at ht
      cases ht
    · exact hclt
    · simp
  cases ok with
  | true => exact hcore initialNomadState
  | false => exact hcore s.session

theorem inv_stepA (s : CState) (a : Act) (hw : wfA s a = true)
    (hinv : ClientInv s) : ClientInv (stepA s a) := by
  cases a with
  | connectOk pk rs crs now => exact inv_connectOk s pk rs crs now hinv
  | register id =>
      have hfresh : id ∉ s.registered := by
        simp only [wfA, Bool.and_eq_true, decide_eq_true_eq] at hw
        exact hw.2
      exact inv_register s id hfresh hinv
  | deliver ev now => exact inv_deliver s ev now hinv
  | fire t =>
      have ht : t ∈ s.liveTimers := by
        simpa [wfA] using hw
      exact inv_fire s t ht hinv
  | pubFail id => exact inv_pubFail s id hinv
  | disconnect ok => exact inv_disconnect s ok hinv

theorem inv_runA (tr : List Act) : ∀ s : CState, ClientInv s →
    wfTrace s tr = true → ClientInv (runA s tr) := by
  induction tr with
  | nil => intro s h _; exact h
  | cons a rest ih =>
      intro s hinv hwf
      simp only [wfTrace, Bool.and_eq_true] at hwf
      exact ih (stepA s a) (inv_stepA s a hwf.1 hinv) hwf.2

theorem inv_reach (tr : List Act) (h : wfTrace initCState tr = true) :
    ClientInv (runA initCState tr) :=
  inv_runA tr initCState inv_init h

/-- `NomadServerQRPayload` from `src/types/nomadserver.ts`. -/
structure NomadServerQRPayload where
  version : Int
  app : String
  nodePubkey : String
  relays : List String
deriving DecidableEq, Repr

/-- Error codes of `NomadServerError` (`src/types/nomadserver.ts`). -/
inductive ErrorCode where
  | INVALID_RESPONSE
  | NETWORK_ERROR
  | NOT_CONNECTED
  | TIMEOUT
  | SERVER_ERROR
deriving DecidableEq, Repr

/-- `NomadServerError` (message and code). -/
structure NomadServerError where
  message : String
  code : ErrorCode
deriving DecidableEq, Repr

/-- Network side effects `initialize` may request from the transport. -/
inductive NetAction where
  | connect (relays : List String)
  | subscribe (kind : Nat) (author : String)
deriving DecidableEq, Repr

/-- `NOMAD_SERVER_REQUEST_KIND` from `src/types/nomadserver.ts`. -/
def NOMAD_SERVER_REQUEST_KIND : Nat := 30078

/-- `NOMAD_SERVER_RESPONSE_KIND` from `src/types/nomadserver.ts`. -/
def NOMAD_SERVER_RESPONSE_KIND : Nat := 30079

/-- `NomadServerConfig` from `src/types/nomadserver.ts`. -/
structure NomadServerConfig where
  serverPubkey : String
  relays : List String
  requestTimeout : Nat
deriving DecidableEq, Repr

/-- Validation prefix of `initialize` (lines 69-92 of `NomadServer.ts`), in
source order.  JS truthiness: `!qrPayload.nodePubkey` is the empty-string
test, and `!qrPayload.relays || qrPayload.relays.length === 0` is the
emptiness test.  Note the code checks only `nodePubkey.length !== 64`; it
never checks the characters are hexadecimal. -/
def validateQRPayload (p : NomadServerQRPayload) : Option NomadServerError :=
  if p.version ≠ 1 then
    some { message := "Unsupported NomadServer version", code := ErrorCode.INVALID_RESPONSE }
  else if p.app ≠ "nomad-server" then
    some { message := "Invalid NomadServer app identifier", code := ErrorCode.INVALID_RESPONSE }
  else if p.nodePubkey = "" ∨ p.nodePubkey.length ≠ 64 then
    some { message := "Invalid server public key", code := ErrorCode.INVALID_RESPONSE }
  else if p.relays.length = 0 then
    some { message := "No relays provided", code := ErrorCode.INVALID_RESPONSE }
  else none

/-- `initialize` up to its network phase (lines 67-120): on validation
failure the error is thrown before `this.config` is assigned and before
any connect or subscribe happens, so an error result carries no network
action; on success the config is built (timeout 60000, line 98) and the
network phase is exactly one connect to the payload relays (line 103)
followed by one subscription to kind-30079 events authored by the server
key (lines 106, 179-183). -/
def initializePlan (p : NomadServerQRPayload) :
    Except NomadServerError (NomadServerConfig × List NetAction) :=
  match validateQRPayload p with
  | some e => Except.error e
  | none =>
      Except.ok
        ({ serverPubkey := p.nodePubkey, relays := p.relays, requestTimeout := 60000 },
         [NetAction.connect p.relays,
          NetAction.subscribe NOMAD_SERVER_RESPONSE_KIND p.nodePubkey])

/-- Hexadecimal character test, for stating what the spec asks of
`nodePubkey` («exactly 64 hex characters»). -/
def isHexDigit (c : Char) : Bool :=
  c.isDigit || (decide (Char.ofNat 97 ≤ c) && decide (c ≤ Char.ofNat 102)) ||
    (decide (Char.ofNat 65 ≤ c) && decide (c ≤ Char.ofNat 70))

/-- Modelled from the spec: «serverKey is exactly 64 hex characters». -/
def isHex64 (s : String) : Bool :=
  decide (s.length = 64) && s.toList.all isHexDigit

/-- `WalletBalance` from `src/types/wallet.ts`. -/
structure WalletBalance where
  confirmed : Int
  unconfirmed : Int
  total : Int
deriving DecidableEq, Repr

/-- The mapping `BdkWalletService.getBalance` applies to the NomadServer
balance response (lines 427-431 of `BdkWalletService.ts`). -/
def toWalletBalance (response : RespBody) : WalletBalance :=
  { confirmed := response.confirmedBalance,
    unconfirmed := response.unconfirmedBalance,
    total := response.confirmedBalance + response.unconfirmedBalance }

/-- The `addresses: string | string[]` parameter of `NomadServer.getBalance`. -/
inductive AddrParam where
  | single (address : String)
  | list (addresses : List String)
deriving DecidableEq, Repr

/-- The request object `NomadServer.getBalance` actually publishes
(lines 357-362): a single `query` field.  `query` is an `Option` because
`addresses[0]` is `undefined` on an empty JS array. -/
structure BitcoinLookupRequest where
  type : String
  query : Option String
deriving DecidableEq, Repr

/-- Lines 351-362 of `NomadServer.ts`:
`const queryAddress = Array.isArray(addresses) ? addresses[0] : addresses`
and `{type: 'bitcoin_lookup', query: queryAddress}`. -/
def getBalanceRequest (addresses : AddrParam) : BitcoinLookupRequest :=
  { type := "bitcoin_lookup",
    query :=
      match addresses with
      | AddrParam.list as => as.head?
      | AddrParam.single a => some a }

/-- Addresses actually carried by a published lookup request. -/
def requestAddresses (r : BitcoinLookupRequest) : List String :=
  match r.query with
  | some a => [a]
  | none => []

/-- Addresses the caller supplied. -/
def givenAddresses : AddrParam → List String
  | AddrParam.single a => [a]
  | AddrParam.list as => as

/-- Modelled from the spec: the candidate correlation id of a delivery,
«extract candidate id preferring the structured req tag; if absent, fall
back to the req field inside the parsed body». -/
def claimedExtractId (ev : Event) : Option String :=
  match tagReqId ev.tags with
  | some rid => some rid
  | none =>
      match ev.body with
      | some r => r.req
      | none => none

theorem inv_countO_le_one (s : CState) (hinv : ClientInv s) (id : String) :
    countO s.outcomes id ≤ 1 := by
  by_cases hid : id ∈ s.registered
  · rcases hinv.regDichotomy id hid with ⟨t, _, hc⟩ | ⟨_, hc⟩ <;> omega
  · have := (hinv.unregClean id hid).2
    omega

theorem countO_ge_two (l : List (String × Outcome)) (id : String) (o1 o2 : Outcome)
    (h1 : (id, o1) ∈ l) (h2 : (id, o2) ∈ l) (hne : o1 ≠ o2) : 2 ≤ countO l id := by
  have m1 : (id, o1) ∈ l.filter (fun o => decide (o.1 = id)) :=
    List.mem_filter.mpr ⟨h1, by simp⟩
  have m2 : (id, o2) ∈ l.filter (fun o => decide (o.1 = id)) :=
    List.mem_filter.mpr ⟨h2, by simp⟩
  exact two_mem_le_length _ _ _ m1 m2 (fun he => hne (congrArg Prod.snd he))

/-- The all-z payload: version, app and relay list valid, and a
64-character server key that contains no hexadecimal digit at all. -/
def zPayload : NomadServerQRPayload :=
  { version := 1, app := "nomad-server",
    nodePubkey := String.mk (List.replicate 64 'z'),
    relays := ["wss://relay.example"] }

/-- Claim C3 counterexample: the claim says `initialize` validates that the
server public key is exactly 64 *hex* characters and raises the pairing
error on any validation failure before network activity.  The code only
checks the length: the all-z key is not hexadecimal, yet validation
accepts it and `initialize` proceeds to connect and subscribe. -/
theorem initialize_nonhex_accepted :
    isHex64 zPayload.nodePubkey = false
  ∧ zPayload.nodePubkey.length = 64
  ∧ validateQRPayload zPayload = none
  ∧ initializePlan zPayload =
      Except.ok
        ({ serverPubkey := zPayload.nodePubkey,
           relays := ["wss://relay.example"], requestTimeout := 60000 },
         [NetAction.connect ["wss://relay.example"],
          NetAction.subscribe 30079 zPayload.nodePubkey]) := by
  refine ⟨by decide, by decide, by decide, rfl⟩

/-- Claim C3 (amended): `initialize(payload)` validates, in order, that
`version == 1`, that `app` equals `"nomad-server"`, that the server public
key is a non-empty string of length exactly 64 (hex-ness is not checked),
and that the relay list is non-empty; each failure yields the
`NomadServerError` (code `INVALID_RESPONSE`) of the first failing check,
and an error result carries no network action (no connect, no subscribe),
leaving the client state unchanged. -/
theorem initialize_validation_order (p : NomadServerQRPayload) :
    (p.version ≠ 1 →
      initializePlan p = Except.error
        { message := "Unsupported NomadServer version", code := ErrorCode.INVALID_RESPONSE })
  ∧ (p.version = 1 → p.app ≠ "nomad-server" →
      initializePlan p = Except.error
        { message := "Invalid NomadServer app identifier", code := ErrorCode.INVALID_RESPONSE })
  ∧ (p.version = 1 → p.app = "nomad-server" →
      (p.nodePubkey = "" ∨ p.nodePubkey.length ≠ 64) →
      initializePlan p = Except.error
        { message := "Invalid server public key", code := ErrorCode.INVALID_RESPONSE })
  ∧ (p.version = 1 → p.app = "nomad-server" → p.nodePubkey ≠ "" →
      p.nodePubkey.length = 64 → p.relays.length = 0 →
      initializePlan p = Except.error
        { message := "No relays provided", code := ErrorCode.INVALID_RESPONSE })
  ∧ (p.version = 1 → p.app = "nomad-server" → p.nodePubkey ≠ "" →
      p.nodePubkey.length = 64 → p.relays.length ≠ 0 →
      initializePlan p = Except.ok
        ({ serverPubkey := p.nodePubkey, relays := p.relays, requestTimeout := 60000 },
         [NetAction.connect p.relays,
          NetAction.subscribe NOMAD_SERVER_RESPONSE_KIND p.nodePubkey])) := by
  refine ⟨?_, ?_, ?_, ?_, ?_⟩
  · intro h1
    simp [initializePlan, validateQRPayload, h1]
  · intro h1 h2
    simp [initializePlan, validateQRPayload, h1, h2]
  · intro h1 h2 h3
    have hv : ¬ (p.version ≠ 1) := by simp [h1]
    have ha : ¬ (p.app ≠ "nomad-server") := by simp [h2]
    simp only [initializePlan, validateQRPayload, if_neg hv, if_neg ha, if_pos h3]
  · intro h1 h2 h3 h4 h5
    have hv : ¬ (p.version ≠ 1) := by simp [h1]
    have ha : ¬ (p.app ≠ "nomad-server") := by simp [h2]
    have hpk : ¬ (p.nodePubkey = "" ∨ p.nodePubkey.length ≠ 64) := by
      push_neg
      exact ⟨h3, h4⟩
    simp only [initializePlan, validateQRPayload, if_neg hv, if_neg ha, if_neg hpk,
      if_pos h5]
  · intro h1 h2 h3 h4 h5
    have hv : ¬ (p.version ≠ 1) := by simp [h1]
    have ha : ¬ (p.app ≠ "nomad-server") := by simp [h2]
    have hpk : ¬ (p.nodePubkey = "" ∨ p.nodePubkey.length ≠ 64) := by
      push_neg
      exact ⟨h3, h4⟩
    simp only [initializePlan, validateQRPayload, if_neg hv, if_neg ha, if_neg hpk,
      if_neg h5]

/-- A payload passing every check of the code. -/
def goodPayload : NomadServerQRPayload :=
  { version := 1, app := "nomad-server",
    nodePubkey := String.mk (List.replicate 64 <| Char.ofNat 97),
    relays := ["wss://relay.example"] }

/-- Witness for `initialize_validation_order` at `goodPayload`. -/
theorem initialize_validation_order_witness :
    initializePlan goodPayload = Except.ok
      ({ serverPubkey := goodPayload.nodePubkey,
         relays := goodPayload.relays, requestTimeout := 60000 },
       [NetAction.connect goodPayload.relays,
        NetAction.subscribe NOMAD_SERVER_RESPONSE_KIND goodPayload.nodePubkey]) :=
  (initialize_validation_order goodPayload).2.2.2.2
    (by decide) (by decide) (by decide) (by decide) (by decide)

/-- Claim C10 counterexample: `getBalance(["addr1", "addr2"], key)` builds a
request whose only address parameter is `"addr1"`; the caller-supplied
`"addr2"` is silently dropped from the published request (line 357:
`Array.isArray(addresses) ? addresses[0] : addresses`). -/
theorem getBalance_drops_second_address :
    givenAddresses (AddrParam.list ["addr1", "addr2"]) = ["addr1", "addr2"]
  ∧ requestAddresses (getBalanceRequest (AddrParam.list ["addr1", "addr2"])) = ["addr1"]
  ∧ "addr2" ∈ givenAddresses (AddrParam.list ["addr1", "addr2"])
  ∧ "addr2" ∉ requestAddresses (getBalanceRequest (AddrParam.list ["addr1", "addr2"])) := by
  refine ⟨rfl, rfl, ?_, ?_⟩ <;> decide

/-- Claim C10 (amended): `getBalance` accepts both a single address and a
list, but the published `bitcoin_lookup` request carries a single `query`
field: the single address, or the first element of the list (absent for an
empty list); addresses after the first are not included in the request. -/
theorem getBalance_query_first_only :
    (∀ a, getBalanceRequest (AddrParam.single a) =
      { type := "bitcoin_lookup", query := some a })
  ∧ (∀ a as, getBalanceRequest (AddrParam.list (a :: as)) =
      { type := "bitcoin_lookup", query := some a })
  ∧ getBalanceRequest (AddrParam.list []) =
      { type := "bitcoin_lookup", query := none } :=
  ⟨fun _ => rfl, fun _ _ => rfl, rfl⟩

/-- Response body of the C9 scenario:
`{confirmedBalance: 50000, unconfirmedBalance: 0, transactions: []}`. -/
def balanceBody : RespBody :=
  { req := some "rid-1", confirmedBalance := 50000, unconfirmedBalance := 0,
    transactions := [] }

/-- Response event of the C9 scenario, tagged with the correlation id. -/
def balanceEvent : Event :=
  { kind := 30079, pubkey := "server", tags := [["req", "rid-1"]],
    body := some balanceBody }

/-- C9 scenario trace: connect, register the `bitcoin_lookup` request id,
deliver the matching response. -/
def balanceTrace : List Act :=
  [Act.connectOk "server" ["wss://r"] ["wss://r"] 0,
   Act.register "rid-1",
   Act.deliver balanceEvent 1]

/-- Claim C9: sending a `bitcoin_lookup` balance query and injecting a
response event tagged with the same correlation id and body
`{confirmedBalance: 50000, unconfirmedBalance: 0, transactions: []}`
resolves the pending request with that body, which the wallet layer maps
to `{confirmed: 50000, unconfirmed: 0, total: 50000}`; in general `total`
equals `confirmedBalance + unconfirmedBalance`. -/
theorem balance_scenario_resolves :
    getBalanceRequest (AddrParam.single "bc1qexampleaddress") =
      { type := "bitcoin_lookup", query := some "bc1qexampleaddress" }
  ∧ wfTrace initCState balanceTrace = true
  ∧ (runA initCState balanceTrace).outcomes =
      [("rid-1", Outcome.resolved balanceBody)]
  ∧ (runA initCState balanceTrace).pending = []
  ∧ toWalletBalance balanceBody =
      { confirmed := 50000, unconfirmed := 0, total := 50000 }
  ∧ (∀ r : RespBody,
      (toWalletBalance r).total = r.confirmedBalance + r.unconfirmedBalance) := by
  refine ⟨rfl, by decide, by decide, by decide, by decide, fun _ => rfl⟩

/-- Claim C1: for every correlation id registered by `sendRequest` along a
well-formed trace, at most one terminal outcome is ever recorded (never
both a resolve and a reject); once an outcome exists the table no longer
contains the id; and while no outcome exists yet the id is still pending
with a live deadline timer whose firing is enabled and yields the single
outcome — so exactly one terminal outcome occurs on every completed run. -/
theorem pending_request_exactly_once (tr : List Act) (id : String)
    (hwf : wfTrace initCState tr = true)
    (hid : id ∈ (runA initCState tr).registered) :
    countO (runA initCState tr).outcomes id ≤ 1
  ∧ (1 ≤ countO (runA initCState tr).outcomes id →
      getA (runA initCState tr).pending id = none)
  ∧ (countO (runA initCState tr).outcomes id = 0 →
      ∃ t, getA (runA initCState tr).pending id = some t
        ∧ wfA (runA initCState tr) (Act.fire t) = true
        ∧ getA (stepA (runA initCState tr) (Act.fire t)).pending id = none
        ∧ countO (stepA (runA initCState tr) (Act.fire t)).outcomes id = 1) := by
  have hinv := inv_reach tr hwf
  rcases hinv.regDichotomy id hid with ⟨t, hp, hc⟩ | ⟨hp, hc⟩
  · have ht : t ∈ (runA initCState tr).liveTimers :=
      (hinv.pendingTimer id t hp).1
    have hcr : getA (runA initCState tr).created t = some id :=
      (hinv.pendingTimer id t hp).2.1
    have hstep : stepA (runA initCState tr) (Act.fire t) =
        { runA initCState tr with
          liveTimers := (runA initCState tr).liveTimers.filter (fun x => decide (x ≠ t)),
          pending := delA (runA initCState tr).pending id,
          outcomes := (runA initCState tr).outcomes ++ [(id, Outcome.timedOut)] } := by
      simp [stepA, ht, hcr]
    refine ⟨by omega, ?_, ?_⟩
    · intro h1
      omega
    · intro _
      refine ⟨t, hp, ?_, ?_, ?_⟩
      · simp only [wfA, decide_eq_true_eq]
        exact ht
      · rw [hstep]
        exact getA_delA_self _ _
      · rw [hstep]
        show countO ((runA initCState tr).outcomes ++ [(id, Outcome.timedOut)]) id = 1
        rw [countO_snoc, hc, if_pos rfl]
  · refine ⟨by omega, fun _ => hp, fun h0 => absurd (hc.symm.trans h0) one_ne_zero⟩

/-- Trace for the C1 witness: a connected client with one registered id. -/
def onceTrace : List Act :=
  [Act.connectOk "pk" ["wss://r"] ["wss://r"] 0, Act.register "w1"]

/-- Witness for `pending_request_exactly_once` on a concrete trace. -/
theorem pending_request_exactly_once_witness :
    countO (runA initCState onceTrace).outcomes "w1" ≤ 1
  ∧ (1 ≤ countO (runA initCState onceTrace).outcomes "w1" →
      getA (runA initCState onceTrace).pending "w1" = none)
  ∧ (countO (runA initCState onceTrace).outcomes "w1" = 0 →
      ∃ t, getA (runA initCState onceTrace).pending "w1" = some t
        ∧ wfA (runA initCState onceTrace) (Act.fire t) = true
        ∧ getA (stepA (runA initCState onceTrace) (Act.fire t)).pending "w1" = none
        ∧ countO (stepA (runA initCState onceTrace) (Act.fire t)).outcomes "w1" = 1) :=
  pending_request_exactly_once onceTrace "w1" (by decide) (by decide)

/-- Claim C2: a delivery whose candidate correlation id (tag preferred,
body-`req` fallback) is absent or is not a key of the pending table — in
particular a duplicate delivery of an already-resolved response — leaves
the whole client state unchanged: same table, same timers, same outcome
log, and no error is raised (the handler is total). -/
theorem handleResponse_unmatched_noop (s : CState) (ev : Event) (now : Nat)
    (h : claimedExtractId ev = none ∨
      ∃ rid, claimedExtractId ev = some rid ∧ getA s.pending rid = none) :
    handleResponse s ev now = s := by
  cases htag : tagReqId ev.tags with
  | none => exact handleResponse_tag_none s ev now htag
  | some rid =>
      have hcl : claimedExtractId ev = some rid := by
        simp [claimedExtractId, htag]
      rcases h with h0 | ⟨rid2, h1, h2⟩
      · rw [hcl] at h0
        exact Option.noConfusion h0
      · rw [hcl] at h1
        cases Option.some.inj h1
        exact handleResponse_not_pending s ev now rid htag h2

/-- Response body of the duplicate-delivery witness. -/
def dupBody : RespBody :=
  { req := some "d1", confirmedBalance := 7, unconfirmedBalance := 0,
    transactions := [] }

/-- Response event of the duplicate-delivery witness. -/
def dupEvent : Event :=
  { kind := 30079, pubkey := "server", tags := [["req", "d1"]],
    body := some dupBody }

/-- State after the first delivery of `dupEvent` already resolved and
removed the id `"d1"`. -/
def dupState : CState :=
  runA initCState
    [Act.connectOk "server" ["wss://r"] ["wss://r"] 0,
     Act.register "d1",
     Act.deliver dupEvent 1]

/-- Witness for `handleResponse_unmatched_noop`: the second delivery of the
very same response event is a no-op. -/
theorem handleResponse_unmatched_noop_witness :
    countO dupState.outcomes "d1" = 1
  ∧ handleResponse dupState dupEvent 2 = dupState :=
  ⟨by decide,
   handleResponse_unmatched_noop dupState dupEvent 2
     (Or.inr ⟨"d1", by decide, by decide⟩)⟩

/-- Parsed body of the C4 failing input: the correlation id is present
only in the body's `req` field. -/
def fallbackBody : RespBody :=
  { req := some "abc", confirmedBalance := 1, unconfirmedBalance := 2,
    transactions := [] }

/-- C4 failing input: a response event with no `req` tag whose body carries
`req: "abc"`. -/
def fallbackEvent : Event :=
  { kind := 30079, pubkey := "server", tags := [["p", "server"]],
    body := some fallbackBody }

/-- Client state with `"abc"` pending, awaiting the C4 failing input. -/
def fallbackState : CState :=
  runA initCState
    [Act.connectOk "server" ["wss://r"] ["wss://r"] 0, Act.register "abc"]

/-- Claim C4 evidence: the spec's body-`req` fallback never runs.  The
early exit at line 211 of `NomadServer.ts` returns before the body is
parsed whenever the tag id is absent, so the fallback code at lines
223-231 is unreachable: an event carrying the id `"abc"` only in its body
does not resolve the pending request `"abc"` — the handler leaves the
state unchanged and records no outcome. -/
theorem handleResponse_body_fallback_dead :
    tagReqId fallbackEvent.tags = none
  ∧ claimedExtractId fallbackEvent = some "abc"
  ∧ getA fallbackState.pending "abc" = some 0
  ∧ handleResponse fallbackState fallbackEvent 5 = fallbackState
  ∧ countO (handleResponse fallbackState fallbackEvent 5).outcomes "abc" = 0 := by
  refine ⟨rfl, rfl, by decide, by decide, by decide⟩

/-- Claim C5: on any reachable state, if an id is still pending with timer
`t` then the timeout callback is enabled, and firing it removes the entry
from the table, rejects exactly that caller with the timeout error, and
consumes the timer; moreover the timeout path and the resolution path are
mutually exclusive — the outcome log of a reachable state never contains
both a resolution and a timeout for the same id. -/
theorem timeout_rejects_and_removes (tr : List Act) (id : String) (t : Nat)
    (hwf : wfTrace initCState tr = true)
    (hp : getA (runA initCState tr).pending id = some t) :
    wfA (runA initCState tr) (Act.fire t) = true
  ∧ (stepA (runA initCState tr) (Act.fire t)).pending =
      delA (runA initCState tr).pending id
  ∧ getA (stepA (runA initCState tr) (Act.fire t)).pending id = none
  ∧ (stepA (runA initCState tr) (Act.fire t)).outcomes =
      (runA initCState tr).outcomes ++ [(id, Outcome.timedOut)]
  ∧ t ∉ (stepA (runA initCState tr) (Act.fire t)).liveTimers
  ∧ (∀ b, ¬ ((id, Outcome.resolved b) ∈ (runA initCState tr).outcomes ∧
        (id, Outcome.timedOut) ∈ (runA initCState tr).outcomes)) := by
  have hinv := inv_reach tr hwf
  have ht : t ∈ (runA initCState tr).liveTimers := (hinv.pendingTimer id t hp).1
  have hcr : getA (runA initCState tr).created t = some id :=
    (hinv.pendingTimer id t hp).2.1
  have hstep : stepA (runA initCState tr) (Act.fire t) =
      { runA initCState tr with
        liveTimers := (runA initCState tr).liveTimers.filter (fun x => decide (x ≠ t)),
        pending := delA (runA initCState tr).pending id,
        outcomes := (runA initCState tr).outcomes ++ [(id, Outcome.timedOut)] } := by
    simp [stepA, ht, hcr]
  refine ⟨?_, ?_, ?_, ?_, ?_, ?_⟩
  · simp only [wfA, decide_eq_true_eq]
    exact ht
  · rw [hstep]
  · rw [hstep]
    exact getA_delA_self _ _
  · rw [hstep]
  · rw [hstep]
    intro hmem
    exact (mem_filter_ne.mp hmem).2 rfl
  · intro b hboth
    have h2 := countO_ge_two _ id (Outcome.resolved b) Outcome.timedOut
      hboth.1 hboth.2 (fun he => Outcome.noConfusion he)
    have h1 := inv_countO_le_one _ hinv id
    omega

/-- Trace for the C5 witness. -/
def t5Trace : List Act :=
  [Act.connectOk "pk" ["wss://r"] ["wss://r"] 0, Act.register "t5"]

/-- Witness for `timeout_rejects_and_removes` on a concrete trace. -/
theorem timeout_rejects_and_removes_witness :
    wfA (runA initCState t5Trace) (Act.fire 0) = true
  ∧ (stepA (runA initCState t5Trace) (Act.fire 0)).pending =
      delA (runA initCState t5Trace).pending "t5"
  ∧ getA (stepA (runA initCState t5Trace) (Act.fire 0)).pending "t5" = none
  ∧ (stepA (runA initCState t5Trace) (Act.fire 0)).outcomes =
      (runA initCState t5Trace).outcomes ++ [("t5", Outcome.timedOut)]
  ∧ 0 ∉ (stepA (runA initCState t5Trace) (Act.fire 0)).liveTimers
  ∧ (∀ b, ¬ (("t5", Outcome.resolved b) ∈ (runA initCState t5Trace).outcomes ∧
        ("t5", Outcome.timedOut) ∈ (runA initCState t5Trace).outcomes)) :=
  timeout_rejects_and_removes t5Trace "t5" 0 (by decide) (by decide)

/-- Claim C6: when `publish` throws, the `catch` block of `sendRequest`
finds the still-pending entry, removes it from the table and clears its
deadline timer, and only then lets the failure propagate to the caller
(recorded as the `publishFailed` outcome) — no entry and no timer remain
live on the failure path, and other pending entries are untouched. -/
theorem publish_failure_cleanup (s : CState) (id : String) (t : Nat)
    (hp : getA s.pending id = some t) :
    (stepA s (Act.pubFail id)).pending = delA s.pending id
  ∧ getA (stepA s (Act.pubFail id)).pending id = none
  ∧ t ∉ (stepA s (Act.pubFail id)).liveTimers
  ∧ (stepA s (Act.pubFail id)).outcomes = s.outcomes ++ [(id, Outcome.publishFailed)]
  ∧ (∀ id2, id2 ≠ id →
      getA (stepA s (Act.pubFail id)).pending id2 = getA s.pending id2) := by
  have hstep : stepA s (Act.pubFail id) =
      { s with
        liveTimers := s.liveTimers.filter (fun x => decide (x ≠ t)),
        pending := delA s.pending id,
        outcomes := s.outcomes ++ [(id, Outcome.publishFailed)] } := by
    simp [stepA, hp]
  refine ⟨?_, ?_, ?_, ?_, ?_⟩
  · rw [hstep]
  · rw [hstep]
    exact getA_delA_self _ _
  · rw [hstep]
    intro hmem
    exact (mem_filter_ne.mp hmem).2 rfl
  · rw [hstep]
  · intro id2 hne
    rw [hstep]
    exact getA_delA_ne _ _ _ hne

/-- State for the C6 witness: two pending requests. -/
def pubState : CState :=
  runA initCState
    [Act.connectOk "pk" ["wss://r"] ["wss://r"] 0,
     Act.register "p6", Act.register "q6"]

/-- Witness for `publish_failure_cleanup` at a concrete state. -/
theorem publish_failure_cleanup_witness :
    (stepA pubState (Act.pubFail "p6")).pending = delA pubState.pending "p6"
  ∧ getA (stepA pubState (Act.pubFail "p6")).pending "p6" = none
  ∧ 0 ∉ (stepA pubState (Act.pubFail "p6")).liveTimers
  ∧ (stepA pubState (Act.pubFail "p6")).outcomes =
      pubState.outcomes ++ [("p6", Outcome.publishFailed)]
  ∧ (∀ id2, id2 ≠ "p6" →
      getA (stepA pubState (Act.pubFail "p6")).pending id2 =
        getA pubState.pending id2) :=
  publish_failure_cleanup pubState "p6" 0 (by decide)

/-- Claim C7: `disconnect()` on any reachable state rejects every pending
request with the same disconnect (`NotConnected`) reason — one
`disconnected` outcome per pending entry, N outcomes for N entries —
empties the pending table, cancels every deadline timer so that zero live
timers remain, and (when the transport disconnect call returns, which is
the behaviour the claim describes) resets the session state to the
disconnected/empty initial state. -/
theorem disconnect_flushes_all (tr : List Act) (ok : Bool)
    (hwf : wfTrace initCState tr = true) :
    (stepA (runA initCState tr) (Act.disconnect ok)).pending = []
  ∧ (stepA (runA initCState tr) (Act.disconnect ok)).liveTimers = []
  ∧ (stepA (runA initCState tr) (Act.disconnect ok)).outcomes =
      (runA initCState tr).outcomes ++
        (runA initCState tr).pending.map (fun p => (p.1, Outcome.disconnected))
  ∧ (stepA (runA initCState tr) (Act.disconnect ok)).outcomes.length =
      (runA initCState tr).outcomes.length + (runA initCState tr).pending.length
  ∧ (ok = true → (stepA (runA initCState tr) (Act.disconnect ok)).session =
      initialNomadState) := by
  have hinv := inv_reach tr hwf
  have hlt := disconnect_timers_cleared _ hinv
  cases ok with
  | true =>
      refine ⟨rfl, ?_, rfl, ?_, fun _ => rfl⟩
      · exact hlt
      · simp [stepA]
  | false =>
      refine ⟨rfl, ?_, rfl, ?_, fun hcontra => Bool.noConfusion hcontra⟩
      · exact hlt
      · simp [stepA]

/-- Trace for the C7 witness: two pending requests at disconnect time. -/
def d7Trace : List Act :=
  [Act.connectOk "pk" ["wss://r"] ["wss://r"] 0,
   Act.register "a1", Act.register "a2"]

/-- Witness for `disconnect_flushes_all` on a concrete trace. -/
theorem disconnect_flushes_all_witness :
    (stepA (runA initCState d7Trace) (Act.disconnect true)).pending = []
  ∧ (stepA (runA initCState d7Trace) (Act.disconnect true)).liveTimers = []
  ∧ (stepA (runA initCState d7Trace) (Act.disconnect true)).outcomes =
      (runA initCState d7Trace).outcomes ++
        (runA initCState d7Trace).pending.map (fun p => (p.1, Outcome.disconnected))
  ∧ (stepA (runA initCState d7Trace) (Act.disconnect true)).outcomes.length =
      (runA initCState d7Trace).outcomes.length +
        (runA initCState d7Trace).pending.length
  ∧ (true = true → (stepA (runA initCState d7Trace) (Act.disconnect true)).session =
      initialNomadState) :=
  disconnect_flushes_all d7Trace true (by decide)

/-- Claim C8: a delivery that matches a pending correlation id but whose
content fails to parse is caught inside the handler (the surrounding
`try`/`catch` only logs): the function is total, the state — table, every
promise, every timer — is returned unchanged, and in particular no pending
request is rejected by the bad event. -/
theorem malformed_body_noop (s : CState) (ev : Event) (now : Nat) (rid : String)
    (timer : Nat) (htag : tagReqId ev.tags = some rid)
    (hpend : getA s.pending rid = some timer) (hbody : ev.body = none) :
    handleResponse s ev now = s :=
  handleResponse_body_none s ev now rid timer htag hpend hbody

/-- Malformed event for the C8 witness: tagged with a pending id but its
content is not valid JSON. -/
def badEvent : Event :=
  { kind := 30079, pubkey := "server", tags := [["req", "m8"]], body := none }

/-- State for the C8 witness: the id `"m8"` is pending. -/
def badState : CState :=
  runA initCState
    [Act.connectOk "server" ["wss://r"] ["wss://r"] 0, Act.register "m8"]

/-- Witness for `malformed_body_noop` at a concrete state and event. -/
theorem malformed_body_noop_witness :
    handleResponse badState badEvent 3 = badState :=
  malformed_body_noop badState badEvent 3 "m8" 0 (by decide) (by decide) (by decide)
